import Mathlib

/-!
A shallow embedding of the THEIA CLI host monitor (`theia-cli2.js`): the
per-platform output parsers, the change-tracking state of `monitor`, and the
poll cycle itself, together with theorems checking the specification's claims
against these definitions.

Strings are handled as `List Char` internally (JavaScript string operations
are modelled character by character); machine-facing numbers (`Date.now()`
values, the 30000 ms highlight window) are `Nat`.  The several `Date.now()`
reads of one cycle are identified as a single instant `now`, as the
specification directs.  Command execution is supplied as an `Except` value:
`Except.error` models a rejected promise from `executeCommand`.
-/

namespace Theia

/-- Prefix test on character lists: does `pat` start `s`? -/
def prefixAt : List Char → List Char → Bool
  | [], _ => true
  | _ :: _, [] => false
  | p :: ps, c :: cs => p == c && prefixAt ps cs

/-- JS `String.prototype.includes`: `pat` occurs contiguously in `s`. -/
def hasSubstring (s pat : List Char) : Bool :=
  match s with
  | [] => prefixAt pat []
  | _ :: cs => prefixAt pat s || hasSubstring (s := cs) pat

/-- JS `split(sep)`: split at every separator character, keeping empty
pieces (as `"a,,b".split(',')` does). -/
def splitOn (sep : Char → Bool) : List Char → List (List Char)
  | [] => [[]]
  | c :: cs =>
    if sep c then [] :: splitOn sep cs
    else
      match splitOn sep cs with
      | [] => [[c]]
      | p :: ps => (c :: p) :: ps

/-- JS `trim()` on a character list. -/
def listTrim (l : List Char) : List Char :=
  ((l.dropWhile Char.isWhitespace).reverse.dropWhile Char.isWhitespace).reverse

/-- `line.trim().split(/\s+/)`: the whitespace-separated tokens of a line
(for the non-blank lines the parsers receive, trimming plus splitting on
whitespace runs is splitting on whitespace and dropping empty pieces). -/
def tokenize (l : List Char) : List String :=
  ((splitOn Char.isWhitespace l).filter (fun t => t ≠ [])).map String.mk

/-- `output.split('\n').filter(line => line.trim())`: the non-blank lines. -/
def jsLines (output : List Char) : List (List Char) :=
  (splitOn (fun c => c == '\n') output).filter (fun l => l.any (fun c => !c.isWhitespace))

/-- JS `a || b` for strings: `b` when `a` is empty (falsy), else `a`.
Also models an out-of-range index (`undefined`), encoded as `""`. -/
def jsOr (a b : String) : String := if a = "" then b else a

/-- JS `toUpperCase` (ASCII range, as in the inputs at hand). -/
def jsUpper (s : String) : String := String.mk (s.data.map Char.toUpper)

/-- One parsed network connection: the object shape pushed by
`parseConnections` (`local` is a Lean keyword, hence `localAddr`). -/
structure ConnRecord where
  protocol : String
  localAddr : String
  remote : String
  state : String
  process : String
  family : Option String := none
  id : String
deriving DecidableEq

/-- One parsed process: the object shape pushed by `parseProcesses`. -/
structure ProcRecord where
  name : String
  pid : String
  user : String
  cpu : String
  mem : String
  id : String
deriving DecidableEq

/-- One line of the Windows (`netstat -ano`) branch of `parseConnections`:
first token `TCP`/`UDP`; remote is the third token and must be truthy and
not `0.0.0.0:0` / `*:*`; state defaults to `N/A`; process is `Unknown`. -/
def winConnLine (line : List Char) : Option ConnRecord :=
  let parts := tokenize line
  if parts.getD 0 "" = "TCP" ∨ parts.getD 0 "" = "UDP" then
    let protocol := parts.getD 0 ""
    let localA := parts.getD 1 ""
    let remote := parts.getD 2 ""
    let state := jsOr (parts.getD 3 "") "N/A"
    if remote ≠ "" ∧ remote ≠ "0.0.0.0:0" ∧ remote ≠ "*:*" then
      some { protocol := protocol, localAddr := localA, remote := remote, state := state,
             process := "Unknown",
             id := protocol ++ "|" ++ localA ++ "|" ++ remote ++ "|" ++ state }
    else none
  else none

/-- Group-1 characters of the lsof name pattern `[^\->]`: neither `-` nor `>`. -/
def isLocalChar (c : Char) : Bool := !(c == '-') && !(c == '>')

/-- Group-2 characters of the pattern `[^\(]`: anything but `(`. -/
def isRemoteChar (c : Char) : Bool := !(c == '(')

/-- The JS regex `([^\->]+)->([^\(]+)\s*\(ESTABLISHED\)` attempted at the
head of `s`, greedy groups.  Group 1 cannot contain `-`, so the greedy run
up to the first `-`/`>` is the only candidate; group 2 cannot contain `(`,
so its greedy run must be followed directly by the literal (the `\s*` can
never consume anything: any whitespace is already part of group 2, and
giving characters back to `\s*` lands the literal on the same position). -/
def matchEstAt (s : List Char) : Option (List Char × List Char) :=
  let a := s.takeWhile isLocalChar
  let r1 := s.dropWhile isLocalChar
  if a = [] then none
  else
    match r1 with
    | '-' :: '>' :: r2 =>
      let b := r2.takeWhile isRemoteChar
      let r3 := r2.dropWhile isRemoteChar
      if b = [] then none
      else if prefixAt "(ESTABLISHED)".data r3 then some (a, b) else none
    | _ => none

/-- Leftmost match of the pattern, as JS `String.prototype.match`. -/
def matchEst : List Char → Option (List Char × List Char)
  | [] => none
  | c :: cs =>
    match matchEstAt (c :: cs) with
    | some r => some r
    | none => matchEst cs

/-- One line of the macOS (`lsof`) branch of `parseConnections`.  The line
must mention `TCP` and `ESTABLISHED` and have at least 9 tokens; the code
reads the family from `parts[3]` (commented `// IPv4 or IPv6`), and the
remainder from the 9th token on is rejoined and matched against the
established pattern. -/
def macConnLine (line : List Char) : Option ConnRecord :=
  if !(hasSubstring line "TCP".data) || !(hasSubstring line "ESTABLISHED".data) then none
  else
    let parts := tokenize line
    if parts.length < 9 then none
    else
      let process := parts.getD 0 ""
      let pid := parts.getD 1 ""
      let family := parts.getD 3 ""
      let namePart := String.intercalate " " (parts.drop 8)
      match matchEst namePart.data with
      | none => none
      | some (a, b) =>
        let localA := String.mk (listTrim a)
        let remote := String.mk (listTrim b)
        some { protocol := "TCP", localAddr := localA, remote := remote,
               state := "ESTABLISHED",
               process := process ++ " (" ++ pid ++ ")",
               family := some family,
               id := "TCP|" ++ localA ++ "|" ++ remote ++ "|ESTABLISHED|" ++ process ++ "|" ++ pid }

/-- One line of the Unix/Linux fallback branch of `parseConnections`
(`ss`/`netstat`): needs a colon, at least 5 tokens; positional fields with
`||` fallbacks; wildcard remotes excluded. -/
def unixConnLine (line : List Char) : Option ConnRecord :=
  if !(hasSubstring line ":".data) then none
  else
    let parts := tokenize line
    if parts.length ≥ 5 then
      let protocol := jsUpper (jsOr (parts.getD 0 "") "TCP")
      let state := jsOr (parts.getD 1 "") "ESTABLISHED"
      let localA := jsOr (parts.getD 4 "") (parts.getD 3 "")
      let remote := jsOr (parts.getD 5 "") (parts.getD 4 "")
      let process := jsOr (parts.getD 6 "") "Unknown"
      if localA ≠ "" ∧ remote ≠ "" ∧ remote ≠ "*" ∧ hasSubstring remote.data "*:*".data = false then
        some { protocol := protocol, localAddr := localA, remote := remote, state := state,
               process := process,
               id := protocol ++ "|" ++ localA ++ "|" ++ remote ++ "|" ++ state }
      else none
    else none

/-- `parseConnections(output, osType)`.  The Unix branch skips the first
non-blank line (header); the other branches inspect every non-blank line. -/
def parseConnections (output osType : String) : List ConnRecord :=
  let lines := jsLines output.data
  if osType = "windows" then lines.filterMap winConnLine
  else if osType = "mac" then lines.filterMap macConnLine
  else (lines.drop 1).filterMap unixConnLine

/-- The quoted-CSV field scanner of the Windows branch of `parseProcesses`:
a quote character toggles `inQ` and is consumed; a comma outside quotes
flushes the trimmed current field; anything else is appended.  Characters
remaining at end of input are discarded (the caller appends a trailing
comma to flush the last field). -/
def scanFields : List Char → Bool → List Char → List String
  | [], _, _ => []
  | c :: cs, inQ, cur =>
    if c == '"' then scanFields cs (!inQ) cur
    else if c == ',' && !inQ then String.mk (listTrim cur) :: scanFields cs inQ []
    else scanFields cs inQ (cur ++ [c])

/-- JS `.replace(/^"/, '')`: drop one leading quote if present. -/
def stripLeadQuote (s : String) : String :=
  match s.data with
  | '"' :: rest => String.mk rest
  | _ => s

/-- JS `.replace(/"$/, '')`: drop one trailing quote if present. -/
def stripTrailQuote (s : String) : String :=
  if s.data.getLast? = some '"' then String.mk s.data.dropLast else s

/-- One data line of the Windows (`tasklist /fo csv`) branch of
`parseProcesses`: scan quoted CSV fields of `line + ','`, require at least
2 fields, strip surrounding quotes from name and pid, `||`-default the
user/cpu/mem columns. -/
def winProcLine (line : List Char) : Option ProcRecord :=
  let fields := scanFields (line ++ [',']) false []
  if fields.length ≥ 2 then
    let name := stripTrailQuote (stripLeadQuote (fields.getD 0 ""))
    let pid := stripTrailQuote (stripLeadQuote (fields.getD 1 ""))
    some { name := name, pid := pid,
           user := jsOr (fields.getD 6 "") "N/A",
           cpu := jsOr (fields.getD 7 "") "N/A",
           mem := jsOr (fields.getD 4 "") "N/A",
           id := name ++ "|" ++ pid }
  else none

/-- One data line of the Unix (`ps aux`) branch of `parseProcesses`:
at least 11 tokens; the command is the join of the tokens from index 10. -/
def unixProcLine (line : List Char) : Option ProcRecord :=
  let parts := tokenize line
  if parts.length ≥ 11 then
    let user := parts.getD 0 ""
    let pid := parts.getD 1 ""
    let cpu := parts.getD 2 ""
    let mem := parts.getD 3 ""
    let command := String.intercalate " " (parts.drop 10)
    some { name := command, pid := pid, user := user, cpu := cpu, mem := mem,
           id := command ++ "|" ++ pid }
  else none

/-- All records `parseProcesses` accumulates, before the final
`slice(0, 50)`; both branches skip the first non-blank line (header). -/
def parseProcessesAll (output osType : String) : List ProcRecord :=
  let lines := jsLines output.data
  if osType = "windows" then (lines.drop 1).filterMap winProcLine
  else (lines.drop 1).filterMap unixProcLine

/-- `parseProcesses(output, osType)`: the accumulated records, capped by
`processes.slice(0, 50)`. -/
def parseProcesses (output osType : String) : List ProcRecord :=
  (parseProcessesAll output osType).take 50

/-! ## Change-tracking state and the poll cycle of `monitor` -/

/-- JS `Map.prototype.get` on an association list. -/
def mapGet (m : List (String × Nat)) (k : String) : Option Nat :=
  (m.find? (fun p => p.1 == k)).map Prod.snd

/-- JS `Map.prototype.set`: overwrite the existing entry in place, else
append a new one. -/
def mapSet (m : List (String × Nat)) (k : String) (v : Nat) : List (String × Nat) :=
  if m.any (fun p => p.1 == k) then m.map (fun p => if p.1 == k then (k, v) else p)
  else m ++ [(k, v)]

/-- The timestamp-recording loop of `monitor`: for each current id absent
from the previous poll's id set, `timestamps.set(id, now)` (an unguarded
`set` — any existing entry is overwritten). -/
def trackNew (prev : List String) (ts : List (String × Nat)) (ids : List String)
    (now : Nat) : List (String × Nat) :=
  ids.foldl (fun acc i => if prev.contains i then acc else mapSet acc i now) ts

/-- The expiry sweep of `monitor`: delete every entry with
`now - timestamp > 30000`. -/
def sweepMap (m : List (String × Nat)) (now : Nat) : List (String × Nat) :=
  m.filter (fun p => !decide (now - p.2 > 30000))

/-- The `isNew` test of `displayConnections`/`displayProcesses`:
`ts.has(id) && now - ts.get(id) < 30000`. -/
def isNew (ts : List (String × Nat)) (now : Nat) (i : String) : Bool :=
  match mapGet ts i with
  | some t => decide (now - t < 30000)
  | none => false

/-- The module-level mutable state of `theia-cli2.js`
(`previousConnections`, `previousProcesses`, `newConnectionTimestamps`,
`newProcessTimestamps`); the JS `Set`s are modelled by their membership
lists. -/
structure MonitorState where
  previousConnections : List String
  previousProcesses : List String
  newConnectionTimestamps : List (String × Nat)
  newProcessTimestamps : List (String × Nat)
deriving DecidableEq

/-- The `-c`/`-p` command line flags. -/
structure Flags where
  connections : Bool
  processes : Bool
deriving DecidableEq

/-- What one completed cycle hands to the terminal: each record of each
enabled kind, annotated with its `isNew` flag. -/
structure RenderOutput where
  connections : List (ConnRecord × Bool)
  processes : List (ProcRecord × Bool)
deriving DecidableEq

/-- The record/annotation pairs `displayConnections` prints. -/
def displayConnections (ts : List (String × Nat)) (now : Nat)
    (conns : List ConnRecord) : List (ConnRecord × Bool) :=
  conns.map (fun c => (c, isNew ts now c.id))

/-- The record/annotation pairs `displayProcesses` prints. -/
def displayProcesses (ts : List (String × Nat)) (now : Nat)
    (procs : List ProcRecord) : List (ProcRecord × Bool) :=
  procs.map (fun p => (p, isNew ts now p.id))

/-- The connection-diffing block of `monitor`: record first-seen stamps
against the old `previousConnections`, then replace it with the current id
set. -/
def connUpdate (st : MonitorState) (conns : List ConnRecord) (now : Nat) : MonitorState :=
  { st with
    newConnectionTimestamps :=
      trackNew st.previousConnections st.newConnectionTimestamps
        (conns.map (fun c => c.id)) now,
    previousConnections := conns.map (fun c => c.id) }

/-- The process-diffing block of `monitor`. -/
def procUpdate (st : MonitorState) (procs : List ProcRecord) (now : Nat) : MonitorState :=
  { st with
    newProcessTimestamps :=
      trackNew st.previousProcesses st.newProcessTimestamps
        (procs.map (fun p => p.id)) now,
    previousProcesses := procs.map (fun p => p.id) }

/-- The tail of a successful cycle: sweep both timestamp maps, then render
the enabled kinds with their `isNew` annotations. -/
def finishCycle (flags : Flags) (conns : List ConnRecord) (procs : List ProcRecord)
    (now : Nat) (st : MonitorState) : MonitorState × Option RenderOutput :=
  let st' : MonitorState :=
    { st with
      newConnectionTimestamps := sweepMap st.newConnectionTimestamps now,
      newProcessTimestamps := sweepMap st.newProcessTimestamps now }
  (st', some
    { connections :=
        if flags.connections then displayConnections st'.newConnectionTimestamps now conns
        else [],
      processes :=
        if flags.processes then displayProcesses st'.newProcessTimestamps now procs
        else [] })

/-- The process half of a cycle: execute/parse/diff when `-p` is set; a
rejected command throws into the top-level catch (state as mutated so far,
no render). -/
def procPhase (osType : String) (flags : Flags) (procExec : Except String String)
    (now : Nat) (conns : List ConnRecord) (st : MonitorState) :
    MonitorState × Option RenderOutput :=
  if flags.processes then
    match procExec with
    | .error _ => (st, none)
    | .ok out =>
      let procs := parseProcesses out osType
      finishCycle flags conns procs now (procUpdate st procs now)
  else finishCycle flags conns [] now st

/-- One poll cycle of `monitor`.  Command execution is supplied as `Except`
values; the cycle's `Date.now()` reads are identified as the single instant
`now`.  An exception from `executeCommand` propagates to the top-level
`try`/`catch`, which only logs: the cycle then produces no render (`none`)
and performs no further state updates. -/
def monitor (osType : String) (flags : Flags) (connExec procExec : Except String String)
    (now : Nat) (st : MonitorState) : MonitorState × Option RenderOutput :=
  if flags.connections then
    match connExec with
    | .error _ => (st, none)
    | .ok out =>
      let conns := parseConnections out osType
      procPhase osType flags procExec now conns (connUpdate st conns now)
  else procPhase osType flags procExec now [] st

/-- The per-kind slice of the change tracker's state: the previous poll's
id set and the first-seen timestamp map of one kind. -/
structure KindState where
  prevIds : List String
  timestamps : List (String × Nat)
deriving DecidableEq

/-- The per-kind slice of one completed poll cycle: stamp the newly seen
ids, replace the previous id set, sweep expired stamps (see
`kindCycle_models_monitor` below for the correspondence with `monitor`). -/
def kindCycle (s : KindState) (ids : List String) (now : Nat) : KindState :=
  { prevIds := ids,
    timestamps := sweepMap (trackNew s.prevIds s.timestamps ids now) now }

/-! ## Helper lemmas about the association-list map operations -/

theorem find?_eq_head?_filter {α : Type} (p : α → Bool) (l : List α) :
    l.find? p = (l.filter p).head? := by
  induction l with
  | nil => rfl
  | cons a l ih =>
    by_cases h : p a
    · rw [List.find?_cons_of_pos _ h, List.filter_cons_of_pos h, List.head?_cons]
    · rw [List.find?_cons_of_neg _ h, List.filter_cons_of_neg h, ih]

/-- The entries of an association list holding key `k`. -/
def filterKey (m : List (String × Nat)) (k : String) : List (String × Nat) :=
  m.filter (fun p => p.1 == k)

theorem mapGet_eq_filterKey (m : List (String × Nat)) (k : String) :
    mapGet m k = (filterKey m k).head?.map Prod.snd := by
  unfold mapGet filterKey
  rw [find?_eq_head?_filter]

theorem filterKey_cons_pos (a : String × Nat) (m : List (String × Nat)) (k : String)
    (h : a.1 = k) : filterKey (a :: m) k = a :: filterKey m k := by
  unfold filterKey
  rw [List.filter_cons_of_pos (by simp [h])]

theorem filterKey_cons_neg (a : String × Nat) (m : List (String × Nat)) (k : String)
    (h : a.1 ≠ k) : filterKey (a :: m) k = filterKey m k := by
  unfold filterKey
  rw [List.filter_cons_of_neg (by simp [h])]

theorem filterKey_nil_iff (m : List (String × Nat)) (k : String) :
    m.any (fun p => p.1 == k) = false ↔ filterKey m k = [] := by
  induction m with
  | nil => simp [filterKey]
  | cons a m ih =>
    by_cases h : a.1 = k
    · rw [filterKey_cons_pos a m k h]
      simp [List.any_cons, h]
    · rw [filterKey_cons_neg a m k h]
      simpa [List.any_cons, h] using ih

theorem filterKey_map_upd (m : List (String × Nat)) (k : String) (v : Nat) :
    filterKey (m.map (fun p => if p.1 == k then (k, v) else p)) k =
      (filterKey m k).map (fun _ => (k, v)) := by
  induction m with
  | nil => rfl
  | cons a m ih =>
    by_cases h : a.1 = k
    · rw [List.map_cons, if_pos (by simp [h] : (a.1 == k) = true),
        filterKey_cons_pos _ _ _ rfl, filterKey_cons_pos a m k h, List.map_cons, ih]
    · rw [List.map_cons, if_neg (by simp [h] : ¬(a.1 == k) = true),
        filterKey_cons_neg _ _ _ h, filterKey_cons_neg a m k h, ih]

theorem filterKey_mapSet_self (m : List (String × Nat)) (k : String) (v t : Nat)
    (h : filterKey m k = [] ∨ filterKey m k = [(k, t)]) :
    filterKey (mapSet m k v) k = [(k, v)] := by
  unfold mapSet
  by_cases ha : m.any (fun p => p.1 == k) = true
  · rw [if_pos ha, filterKey_map_upd]
    rcases h with h | h
    · rw [← filterKey_nil_iff] at h
      rw [h] at ha
      exact absurd ha (by simp)
    · rw [h]
      rfl
  · rw [if_neg ha]
    have hfalse : m.any (fun p => p.1 == k) = false := by
      cases hb : m.any (fun p => p.1 == k)
      · rfl
      · exact absurd hb ha
    have hnil : filterKey m k = [] := (filterKey_nil_iff m k).mp hfalse
    unfold filterKey at hnil ⊢
    rw [List.filter_append, hnil]
    simp

theorem filterKey_mapSet_ne (m : List (String × Nat)) (k k' : String) (v : Nat)
    (hne : k' ≠ k) :
    filterKey (mapSet m k' v) k = filterKey m k := by
  unfold mapSet
  by_cases ha : m.any (fun p => p.1 == k') = true
  · rw [if_pos ha]
    clear ha
    induction m with
    | nil => rfl
    | cons a m ih =>
      by_cases h : a.1 = k'
      · rw [List.map_cons, if_pos (by simp [h] : (a.1 == k') = true),
          filterKey_cons_neg _ _ _ hne, filterKey_cons_neg a m k (by rw [h]; exact hne), ih]
      · rw [List.map_cons, if_neg (by simp [h] : ¬(a.1 == k') = true)]
        by_cases h2 : a.1 = k
        · rw [filterKey_cons_pos _ _ _ h2, filterKey_cons_pos a m k h2, ih]
        · rw [filterKey_cons_neg _ _ _ h2, filterKey_cons_neg a m k h2, ih]
  · rw [if_neg ha]
    unfold filterKey
    rw [List.filter_append]
    have hone : List.filter (fun p : String × Nat => p.1 == k) [(k', v)] = [] := by
      simp [hne]
    rw [hone, List.append_nil]

theorem mapGet_mapSet_self (m : List (String × Nat)) (k : String) (v : Nat) :
    mapGet (mapSet m k v) k = some v := by
  unfold mapSet
  by_cases ha : m.any (fun p => p.1 == k) = true
  · rw [if_pos ha]
    induction m with
    | nil => simp at ha
    | cons a m ih =>
      by_cases h : a.1 = k
      · rw [List.map_cons, if_pos (by simp [h] : (a.1 == k) = true)]
        unfold mapGet
        rw [List.find?_cons_of_pos _ (by simp)]
        rfl
      · have ha' : m.any (fun p => p.1 == k) = true := by
          simpa [List.any_cons, h] using ha
        rw [List.map_cons, if_neg (by simp [h] : ¬(a.1 == k) = true)]
        unfold mapGet
        rw [List.find?_cons_of_neg _ (by simp [h])]
        exact ih ha'
  · rw [if_neg ha]
    unfold mapGet
    rw [List.find?_append]
    have hnone : m.find? (fun p => p.1 == k) = none := by
      rw [List.find?_eq_none]
      intro x hx hpx
      apply ha
      exact List.any_of_mem hx hpx
    rw [hnone]
    have hone : List.find? (fun p : String × Nat => p.1 == k) [(k, v)] = some (k, v) :=
      List.find?_cons_of_pos _ (by simp)
    rw [hone]
    rfl

theorem mapGet_mapSet_ne (m : List (String × Nat)) (k k' : String) (v : Nat)
    (hne : k' ≠ k) :
    mapGet (mapSet m k' v) k = mapGet m k := by
  rw [mapGet_eq_filterKey, mapGet_eq_filterKey, filterKey_mapSet_ne m k k' v hne]

/-! ## Lemmas about the change-tracking steps -/

theorem trackNew_skip (prev : List String) (now : Nat) (k : String) :
    ∀ (ids : List String) (ts : List (String × Nat)),
      (∀ i ∈ ids, i = k → prev.contains i = true) →
      filterKey (trackNew prev ts ids now) k = filterKey ts k := by
  intro ids
  induction ids with
  | nil => intro ts _; rfl
  | cons i ids ih =>
    intro ts h
    unfold trackNew at ih ⊢
    rw [List.foldl_cons]
    by_cases hp : prev.contains i = true
    · rw [if_pos hp]
      exact ih ts (fun j hj => h j (List.mem_cons_of_mem i hj))
    · rw [if_neg hp]
      have hik : i ≠ k := fun he => hp (h i (List.mem_cons_self i ids) he)
      rw [ih (mapSet ts i now) (fun j hj => h j (List.mem_cons_of_mem i hj)),
        filterKey_mapSet_ne ts k i now hik]

theorem trackNew_mapGet_skip (prev : List String) (now : Nat) (k : String)
    (ids : List String) (ts : List (String × Nat))
    (h : ∀ i ∈ ids, i = k → prev.contains i = true) :
    mapGet (trackNew prev ts ids now) k = mapGet ts k := by
  rw [mapGet_eq_filterKey, mapGet_eq_filterKey, trackNew_skip prev now k ids ts h]

theorem trackNew_set (prev : List String) (now : Nat) (k : String) :
    ∀ (ids : List String) (ts : List (String × Nat)),
      prev.contains k = false →
      (mapGet ts k = some now ∨ k ∈ ids) →
      mapGet (trackNew prev ts ids now) k = some now := by
  intro ids
  induction ids with
  | nil =>
    intro ts _ h
    rcases h with h | h
    · exact h
    · exact absurd h (List.not_mem_nil k)
  | cons i ids ih =>
    intro ts hp h
    unfold trackNew at ih ⊢
    rw [List.foldl_cons]
    by_cases hpi : prev.contains i = true
    · rw [if_pos hpi]
      apply ih ts hp
      rcases h with h | h
      · exact Or.inl h
      · rcases List.mem_cons.mp h with he | hm
        · exfalso
          rw [← he] at hpi
          rw [hpi] at hp
          cases hp
        · exact Or.inr hm
    · rw [if_neg hpi]
      apply ih (mapSet ts i now) hp
      by_cases hik : i = k
      · subst hik
        exact Or.inl (mapGet_mapSet_self ts i now)
      · rcases h with h | h
        · exact Or.inl (by rw [mapGet_mapSet_ne ts k i now hik]; exact h)
        · rcases List.mem_cons.mp h with he | hm
          · exact absurd he.symm hik
          · exact Or.inr hm

theorem trackNew_set_shape (prev : List String) (now : Nat) (k : String) :
    ∀ (ids : List String) (ts : List (String × Nat)),
      prev.contains k = false →
      (filterKey ts k = [(k, now)] ∨
        (k ∈ ids ∧ (filterKey ts k = [] ∨ ∃ t, filterKey ts k = [(k, t)]))) →
      filterKey (trackNew prev ts ids now) k = [(k, now)] := by
  intro ids
  induction ids with
  | nil =>
    intro ts _ h
    rcases h with h | h
    · exact h
    · exact absurd h.1 (List.not_mem_nil k)
  | cons i ids ih =>
    intro ts hp h
    unfold trackNew at ih ⊢
    rw [List.foldl_cons]
    by_cases hpi : prev.contains i = true
    · rw [if_pos hpi]
      apply ih ts hp
      rcases h with h | h
      · exact Or.inl h
      · rcases List.mem_cons.mp h.1 with he | hm
        · exfalso
          rw [← he] at hpi
          rw [hpi] at hp
          cases hp
        · exact Or.inr ⟨hm, h.2⟩
    · rw [if_neg hpi]
      apply ih (mapSet ts i now) hp
      by_cases hik : i = k
      · subst hik
        apply Or.inl
        rcases h with h | h
        · exact filterKey_mapSet_self ts i now now (Or.inr h)
        · rcases h.2 with hnil | ⟨t, ht⟩
          · exact filterKey_mapSet_self ts i now 0 (Or.inl hnil)
          · exact filterKey_mapSet_self ts i now t (Or.inr ht)
      · rcases h with h | h
        · exact Or.inl (by rw [filterKey_mapSet_ne ts k i now hik]; exact h)
        · rcases List.mem_cons.mp h.1 with he | hm
          · exact absurd he.symm hik
          · exact Or.inr ⟨hm, by rw [filterKey_mapSet_ne ts k i now hik]; exact h.2⟩

theorem filterKey_sweepMap (m : List (String × Nat)) (now : Nat) (k : String) :
    filterKey (sweepMap m now) k =
      (filterKey m k).filter (fun p => !decide (now - p.2 > 30000)) := by
  unfold filterKey sweepMap
  rw [List.filter_filter, List.filter_filter]
  simp only [Bool.and_comm]

theorem sweepMap_bound (m : List (String × Nat)) (now : Nat) :
    ∀ p ∈ sweepMap m now, now - p.2 ≤ 30000 := by
  intro p hp
  unfold sweepMap at hp
  rw [List.mem_filter] at hp
  have h2 := hp.2
  simp only [Bool.not_eq_true', decide_eq_false_iff_not] at h2
  omega

/-- `kindCycle` is literally the per-kind slice of a completed `monitor`
cycle (shown here for the connections kind in a `-c`-only run). -/
theorem kindCycle_models_monitor (ost out : String) (now : Nat) (st : MonitorState) :
    ((monitor ost ⟨true, false⟩ (Except.ok out) (Except.ok "") now st).1.previousConnections,
      (monitor ost ⟨true, false⟩ (Except.ok out) (Except.ok "") now st).1.newConnectionTimestamps) =
    ((kindCycle ⟨st.previousConnections, st.newConnectionTimestamps⟩
        ((parseConnections out ost).map (fun c => c.id)) now).prevIds,
      (kindCycle ⟨st.previousConnections, st.newConnectionTimestamps⟩
        ((parseConnections out ost).map (fun c => c.id)) now).timestamps) := rfl

/-- Invariant for repeated cycles in which `k` stays present: the `k` entry
of the timestamp map holds the first-seen stamp `t0` exactly while the last
completed cycle's `now` is within the window, and is gone afterwards. -/
theorem kindCycle_inv (k : String) (t0 : Nat) :
    ∀ (rest : List (List String × Nat)) (s : KindState) (u : Nat),
      (∀ p ∈ rest, k ∈ p.1) →
      List.Chain (fun a b => a ≤ b) u (rest.map Prod.snd) →
      t0 ≤ u →
      filterKey s.timestamps k = (if u - t0 ≤ 30000 then [(k, t0)] else []) →
      s.prevIds.contains k = true →
      filterKey (rest.foldl (fun s p => kindCycle s p.1 p.2) s).timestamps k =
        (if (rest.map Prod.snd).getLastD u - t0 ≤ 30000 then [(k, t0)] else []) := by
  intro rest
  induction rest with
  | nil =>
    intro s u _ _ _ hshape _
    simpa using hshape
  | cons q rest ih =>
    intro s u hk hchain ht0 hshape hprev
    obtain ⟨ids, v⟩ := q
    rw [List.map_cons] at hchain ⊢
    rw [List.getLastD_cons, List.foldl_cons]
    have huv : u ≤ v := (List.chain_cons.mp hchain).1
    have hchain' := (List.chain_cons.mp hchain).2
    have hkids : k ∈ ids := hk (ids, v) (List.mem_cons_self _ _)
    have hstep : filterKey (kindCycle s ids v).timestamps k =
        (if v - t0 ≤ 30000 then [(k, t0)] else []) := by
      show filterKey (sweepMap (trackNew s.prevIds s.timestamps ids v) v) k = _
      rw [filterKey_sweepMap,
        trackNew_skip s.prevIds v k ids s.timestamps (fun i _ hi => by rw [hi]; exact hprev),
        hshape]
      by_cases hv : v - t0 ≤ 30000
      · rw [if_pos hv]
        by_cases hu : u - t0 ≤ 30000
        · rw [if_pos hu, List.filter_cons_of_pos (by simp; omega)]
          rfl
        · exfalso
          omega
      · rw [if_neg hv]
        by_cases hu : u - t0 ≤ 30000
        · rw [if_pos hu, List.filter_cons_of_neg (by simp; omega)]
          rfl
        · rw [if_neg hu]
          rfl
    have hprev' : (kindCycle s ids v).prevIds.contains k = true := by
      show ids.contains k = true
      exact List.elem_iff.mpr hkids
    exact ih (kindCycle s ids v) v (fun p hp => hk p (List.mem_cons_of_mem _ hp))
      hchain' (le_trans ht0 huv) hstep hprev'

/-! ## The claims -/

/-- Claim C1 (code bug): on the spec's macOS example line the parser does
yield protocol `TCP`, local `[::1]:54321`, remote `example.com:443` and
owning process `chrome (12345)` — but the record's address-family field is
the fourth whitespace token `50u` (the lsof FD column), not `IPv6`: the
code reads `parts[3]`, although its own comments document the lsof layout
`COMMAND PID USER FD TYPE ...` (family is the fifth token) and annotate the
read value as `// IPv4 or IPv6`. -/
theorem claim_C1_family_is_fourth_token :
    parseConnections
        "chrome 12345 user 50u IPv6 0xabc 0t0 TCP [::1]:54321->example.com:443 (ESTABLISHED)"
        "mac" =
      [{ protocol := "TCP", localAddr := "[::1]:54321", remote := "example.com:443",
         state := "ESTABLISHED", process := "chrome (12345)", family := some "50u",
         id := "TCP|[::1]:54321|example.com:443|ESTABLISHED|chrome|12345" }] ∧
    (parseConnections
        "chrome 12345 user 50u IPv6 0xabc 0t0 TCP [::1]:54321->example.com:443 (ESTABLISHED)"
        "mac").map (fun c => c.family) ≠ [some "IPv6"] :=
  ⟨by decide, by decide⟩

/-- Claim C2 (counterexample): with both kinds enabled and the connections
command failing, the cycle aborts entirely — the state is unchanged and
nothing is rendered — even though the processes command's output parses to
a record: the processes kind is not parsed, diffed or rendered in that
cycle, contrary to the claim. -/
theorem claim_C2_counterexample :
    monitor "unix" ⟨true, true⟩ (Except.error "spawn failed")
        (Except.ok "h\nroot 1 0.0 0.1 a b c d e f /sbin/init x") 0 ⟨[], [], [], []⟩ =
      (⟨[], [], [], []⟩, none) ∧
    parseProcesses "h\nroot 1 0.0 0.1 a b c d e f /sbin/init x" "unix" ≠ [] :=
  ⟨by decide, by decide⟩

/-- Claim C2 (amended): a failed command execution is caught by `monitor`'s
top-level catch and only logged — the cycle function returns normally, so
the process does not crash and the next tick proceeds — but the whole cycle
is aborted at the first failure rather than completing with empty results
for the affected kind: nothing is rendered for either kind.  A connections
failure leaves the state untouched; a processes failure happens after the
connection diffing and aborts before the sweep and the render. -/
theorem claim_C2_amended (ost : String) (b : Bool) (out : String)
    (pexec : Except String String) (msg : String) (now : Nat) (st : MonitorState) :
    monitor ost ⟨true, b⟩ (Except.error msg) pexec now st = (st, none) ∧
    monitor ost ⟨true, true⟩ (Except.ok out) (Except.error msg) now st =
      (connUpdate st (parseConnections out ost) now, none) :=
  ⟨rfl, rfl⟩

/-- Claim C3 (counterexample): a connection key observed at `now = 0`,
absent at `now = 10000`, and observed again at `now = 20000` (all within
the 30000 ms window) has its stored first-seen timestamp overwritten from
`0` to `20000` by the third cycle's unguarded `Map.set`, contrary to the
claim that an existing entry is never overwritten or refreshed. -/
theorem claim_C3_counterexample :
    mapGet ((monitor "unix" ⟨true, false⟩
          (Except.ok "hdr\ntcp ESTAB 0 0 1.2.3.4:80 5.6.7.8:90 app") (Except.ok "") 0
          ⟨[], [], [], []⟩).1).newConnectionTimestamps
        "TCP|1.2.3.4:80|5.6.7.8:90|ESTAB" = some 0 ∧
    mapGet ((monitor "unix" ⟨true, false⟩
          (Except.ok "hdr\ntcp ESTAB 0 0 1.2.3.4:80 5.6.7.8:90 app") (Except.ok "") 20000
          ((monitor "unix" ⟨true, false⟩ (Except.ok "hdr") (Except.ok "") 10000
            ((monitor "unix" ⟨true, false⟩
              (Except.ok "hdr\ntcp ESTAB 0 0 1.2.3.4:80 5.6.7.8:90 app") (Except.ok "") 0
              ⟨[], [], [], []⟩).1)).1)).1).newConnectionTimestamps
        "TCP|1.2.3.4:80|5.6.7.8:90|ESTAB" = some 20000 :=
  ⟨by decide, by decide⟩

/-- Claim C3 (amended): an entry is stamped exactly for keys present in the
current poll and absent from the previous poll's id set — a key absent from
the current poll, or present in the previous set, keeps its map entry
unchanged — but the stamping is an unguarded `Map.set`: for a stamped key
any existing first-seen entry is overwritten with the current `now`, so a
key reappearing within the highlight window after a one-poll absence has
its stored first-seen timestamp refreshed. -/
theorem claim_C3_amended (prev : List String) (ts : List (String × Nat))
    (ids : List String) (now : Nat) (k : String) :
    (¬ k ∈ ids ∨ prev.contains k = true →
      mapGet (trackNew prev ts ids now) k = mapGet ts k) ∧
    (k ∈ ids → prev.contains k = false →
      mapGet (trackNew prev ts ids now) k = some now) := by
  constructor
  · intro h
    apply trackNew_mapGet_skip
    intro i hi hie
    subst hie
    rcases h with h | h
    · exact absurd hi h
    · exact h
  · intro hm hp
    exact trackNew_set prev now k ids ts hp (Or.inr hm)

/-- Claim C3 amended theorem, instantiated: a concrete overwrite of an
existing entry, and a concrete skip for a key in the previous set. -/
theorem claim_C3_witness :
    mapGet (trackNew [] [("k", 5)] ["k"] 7) "k" = some 7 ∧
    mapGet (trackNew ["j"] [("k", 5)] ["j"] 7) "k" = mapGet [("k", 5)] "k" := by
  constructor
  · exact (claim_C3_amended [] [("k", 5)] ["k"] 7 "k").2 (by decide) (by decide)
  · exact (claim_C3_amended ["j"] [("k", 5)] ["j"] 7 "k").1 (Or.inl (by decide))

/-- Claim C4 (confirmed): a key with no existing first-seen entry, absent
from the previous poll's id set, present in its first poll (at time `t0`)
and in every subsequent poll, with cycle instants non-decreasing, is
annotated `isNew = true` at the final cycle's instant exactly when that
instant is strictly within 30000 ms of `t0` — in particular `isNew = false`
at and after `t0 + 30000` (one `now` per cycle, shared by sweep and
annotation). -/
theorem claim_C4 (st0 : KindState) (k : String) (ids0 : List String) (t0 : Nat)
    (rest : List (List String × Nat))
    (hts : filterKey st0.timestamps k = [])
    (hprev : st0.prevIds.contains k = false)
    (hmem : k ∈ ids0)
    (hk : ∀ p ∈ rest, k ∈ p.1)
    (hchain : List.Chain (fun a b => a ≤ b) t0 (rest.map Prod.snd)) :
    isNew (rest.foldl (fun s p => kindCycle s p.1 p.2) (kindCycle st0 ids0 t0)).timestamps
        ((rest.map Prod.snd).getLastD t0) k =
      decide ((rest.map Prod.snd).getLastD t0 - t0 < 30000) := by
  have hstep : filterKey (kindCycle st0 ids0 t0).timestamps k = [(k, t0)] := by
    show filterKey (sweepMap (trackNew st0.prevIds st0.timestamps ids0 t0) t0) k = _
    rw [filterKey_sweepMap,
      trackNew_set_shape st0.prevIds t0 k ids0 st0.timestamps hprev
        (Or.inr ⟨hmem, Or.inl hts⟩),
      List.filter_cons_of_pos (by simp)]
    rfl
  have hshape : filterKey (kindCycle st0 ids0 t0).timestamps k =
      (if t0 - t0 ≤ 30000 then [(k, t0)] else []) := by
    rw [hstep, if_pos (by omega)]
  have hprev1 : (kindCycle st0 ids0 t0).prevIds.contains k = true := by
    show ids0.contains k = true
    exact List.elem_iff.mpr hmem
  have hfin := kindCycle_inv k t0 rest (kindCycle st0 ids0 t0) t0 hk hchain
    (le_refl t0) hshape hprev1
  unfold isNew
  rw [mapGet_eq_filterKey, hfin]
  by_cases hT : (rest.map Prod.snd).getLastD t0 - t0 ≤ 30000
  · rw [if_pos hT]
    rfl
  · rw [if_neg hT]
    have hnot : ¬((rest.map Prod.snd).getLastD t0 - t0 < 30000) := by omega
    exact (decide_eq_false hnot).symm

/-- Claim C4 theorem, instantiated: a key first seen at `t0 = 0` and kept
present through cycles at 10000 ms and 29999 ms is still annotated new at
29999 ms. -/
theorem claim_C4_witness :
    isNew (([(["a", "b"], 10000), (["a"], 29999)] : List (List String × Nat)).foldl
        (fun s p => kindCycle s p.1 p.2) (kindCycle ⟨[], []⟩ ["a"] 0)).timestamps
      29999 "a" = decide ((29999 : Nat) - 0 < 30000) := by
  exact claim_C4 ⟨[], []⟩ "a" ["a"] 0 [(["a", "b"], 10000), (["a"], 29999)]
    (by decide) (by decide) (by decide) (by decide)
    (List.Chain.cons (by omega) (List.Chain.cons (by omega) List.Chain.nil))

theorem finishCycle_bound (flags : Flags) (conns : List ConnRecord)
    (procs : List ProcRecord) (now : Nat) (st st' : MonitorState)
    (r : Option RenderOutput)
    (h : finishCycle flags conns procs now st = (st', r)) :
    (∀ p ∈ st'.newConnectionTimestamps, now - p.2 ≤ 30000) ∧
    (∀ p ∈ st'.newProcessTimestamps, now - p.2 ≤ 30000) := by
  have hst : st' = (finishCycle flags conns procs now st).1 :=
    (congrArg Prod.fst h).symm
  constructor
  · intro p hp
    rw [hst] at hp
    exact sweepMap_bound st.newConnectionTimestamps now p hp
  · intro p hp
    rw [hst] at hp
    exact sweepMap_bound st.newProcessTimestamps now p hp

theorem procPhase_bound (ost : String) (flags : Flags) (pe : Except String String)
    (now : Nat) (conns : List ConnRecord) (st st' : MonitorState) (r : RenderOutput)
    (h : procPhase ost flags pe now conns st = (st', some r)) :
    (∀ p ∈ st'.newConnectionTimestamps, now - p.2 ≤ 30000) ∧
    (∀ p ∈ st'.newProcessTimestamps, now - p.2 ≤ 30000) := by
  unfold procPhase at h
  by_cases hf : flags.processes = true
  · rw [if_pos hf] at h
    cases pe with
    | error e => exact absurd (congrArg Prod.snd h) (by simp)
    | ok out => exact finishCycle_bound _ _ _ _ _ _ _ h
  · rw [if_neg hf] at h
    exact finishCycle_bound _ _ _ _ _ _ _ h

/-- Claim C5 (confirmed): whenever a `monitor` cycle completes its expiry
sweep (equivalently, produces a render), every entry remaining in either
timestamp map is at most 30000 ms old at the cycle's `now`, whether or not
its key is present in the current poll. -/
theorem claim_C5 (ost : String) (flags : Flags) (ce pe : Except String String)
    (now : Nat) (st st' : MonitorState) (r : RenderOutput)
    (h : monitor ost flags ce pe now st = (st', some r)) :
    (∀ p ∈ st'.newConnectionTimestamps, now - p.2 ≤ 30000) ∧
    (∀ p ∈ st'.newProcessTimestamps, now - p.2 ≤ 30000) := by
  unfold monitor at h
  by_cases hf : flags.connections = true
  · rw [if_pos hf] at h
    cases ce with
    | error e => exact absurd (congrArg Prod.snd h) (by simp)
    | ok out => exact procPhase_bound _ _ _ _ _ _ _ _ h
  · rw [if_neg hf] at h
    exact procPhase_bound _ _ _ _ _ _ _ _ h

/-- Claim C5 theorem, instantiated: a cycle at `now = 5` over a state whose
connection map holds an entry stamped at `2` completes with that entry aged
within the window. -/
theorem claim_C5_witness :
    (∀ p ∈ (MonitorState.mk [] [] [("k", 2)] []).newConnectionTimestamps,
      (5 : Nat) - p.2 ≤ 30000) ∧
    (∀ p ∈ (MonitorState.mk [] [] [("k", 2)] []).newProcessTimestamps,
      (5 : Nat) - p.2 ≤ 30000) := by
  exact claim_C5 "unix" ⟨false, false⟩ (Except.ok "") (Except.ok "") 5
    ⟨[], [], [("k", 2)], []⟩ ⟨[], [], [("k", 2)], []⟩ ⟨[], []⟩ (by decide)

/-- Claim C6 (counterexample): the Windows parser emits a record for a
3-token line — the claim's "at least 4 whitespace tokens" is not required
by the code, which only needs the remote token (third) to exist; the
missing state token defaults to `N/A`. -/
theorem claim_C6_counterexample :
    parseConnections "TCP 1.2.3.4:80 5.6.7.8:90" "windows" =
      [{ protocol := "TCP", localAddr := "1.2.3.4:80", remote := "5.6.7.8:90",
         state := "N/A", process := "Unknown", family := none,
         id := "TCP|1.2.3.4:80|5.6.7.8:90|N/A" }] ∧
    (tokenize ("TCP 1.2.3.4:80 5.6.7.8:90").data).length = 3 :=
  ⟨by decide, by decide⟩

/-- Claim C6 (amended): the Windows connection parser emits a record for a
line iff the first whitespace token is `TCP` or `UDP` and the third token
(the remote endpoint) exists — i.e. the line has at least 3 tokens, not 4 —
and is not `0.0.0.0:0` or `*:*`; when a record is emitted, the owning
process is always `Unknown`, and if the fourth (state) token is absent the
state field is `N/A`. -/
theorem claim_C6_amended (line : List Char) :
    ((winConnLine line).isSome = true ↔
      ((tokenize line).getD 0 "" = "TCP" ∨ (tokenize line).getD 0 "" = "UDP") ∧
      (tokenize line).getD 2 "" ≠ "" ∧ (tokenize line).getD 2 "" ≠ "0.0.0.0:0" ∧
      (tokenize line).getD 2 "" ≠ "*:*") ∧
    (∀ r, winConnLine line = some r →
      r.process = "Unknown" ∧ ((tokenize line).get? 3 = none → r.state = "N/A")) := by
  by_cases h1 : (tokenize line).getD 0 "" = "TCP" ∨ (tokenize line).getD 0 "" = "UDP"
  · by_cases h2 : (tokenize line).getD 2 "" ≠ "" ∧ (tokenize line).getD 2 "" ≠ "0.0.0.0:0" ∧
        (tokenize line).getD 2 "" ≠ "*:*"
    · have hval : winConnLine line = some
          { protocol := (tokenize line).getD 0 "", localAddr := (tokenize line).getD 1 "",
            remote := (tokenize line).getD 2 "",
            state := jsOr ((tokenize line).getD 3 "") "N/A", process := "Unknown",
            id := (tokenize line).getD 0 "" ++ "|" ++ (tokenize line).getD 1 "" ++ "|" ++
              (tokenize line).getD 2 "" ++ "|" ++ jsOr ((tokenize line).getD 3 "") "N/A" } := by
        simp only [winConnLine]
        rw [if_pos h1, if_pos h2]
      constructor
      · rw [hval]
        simp only [Option.isSome_some, true_iff]
        exact ⟨h1, h2⟩
      · intro r hr
        rw [hval] at hr
        cases hr
        constructor
        · rfl
        · intro h3
          show jsOr ((tokenize line).getD 3 "") "N/A" = "N/A"
          rw [List.getD_eq_get?, h3]
          rfl
    · have hval : winConnLine line = none := by
        simp only [winConnLine]
        rw [if_pos h1, if_neg h2]
      constructor
      · rw [hval]
        simp only [Option.isSome_none, Bool.false_eq_true, false_iff]
        intro hc
        exact h2 hc.2
      · intro r hr
        rw [hval] at hr
        exact Option.noConfusion hr
  · have hval : winConnLine line = none := by
      simp only [winConnLine]
      rw [if_neg h1]
    constructor
    · rw [hval]
      simp only [Option.isSome_none, Bool.false_eq_true, false_iff]
      intro hc
      exact h1 hc.1
    · intro r hr
      rw [hval] at hr
      exact Option.noConfusion hr

/-- Claim C6 amended theorem, instantiated at the 3-token line: the emitted
record's process is `Unknown` and its state defaulted to `N/A`. -/
theorem claim_C6_witness :
    ({ protocol := "TCP", localAddr := "1.2.3.4:80", remote := "5.6.7.8:90",
       state := "N/A", process := "Unknown", family := none,
       id := "TCP|1.2.3.4:80|5.6.7.8:90|N/A" } : ConnRecord).process = "Unknown" ∧
    ({ protocol := "TCP", localAddr := "1.2.3.4:80", remote := "5.6.7.8:90",
       state := "N/A", process := "Unknown", family := none,
       id := "TCP|1.2.3.4:80|5.6.7.8:90|N/A" } : ConnRecord).state = "N/A" := by
  have h := (claim_C6_amended ("TCP 1.2.3.4:80 5.6.7.8:90").data).2
    { protocol := "TCP", localAddr := "1.2.3.4:80", remote := "5.6.7.8:90",
      state := "N/A", process := "Unknown", family := none,
      id := "TCP|1.2.3.4:80|5.6.7.8:90|N/A" } (by decide)
  exact ⟨h.1, h.2 (by decide)⟩

theorem winConnLine_remote (l : List Char) (r : ConnRecord)
    (hl : winConnLine l = some r) :
    r.remote ≠ "0.0.0.0:0" ∧ r.remote ≠ "*:*" := by
  simp only [winConnLine] at hl
  by_cases h1 : (tokenize l).getD 0 "" = "TCP" ∨ (tokenize l).getD 0 "" = "UDP"
  · rw [if_pos h1] at hl
    by_cases h2 : (tokenize l).getD 2 "" ≠ "" ∧ (tokenize l).getD 2 "" ≠ "0.0.0.0:0" ∧
        (tokenize l).getD 2 "" ≠ "*:*"
    · rw [if_pos h2] at hl
      cases hl
      exact ⟨h2.2.1, h2.2.2⟩
    · rw [if_neg h2] at hl
      exact Option.noConfusion hl
  · rw [if_neg h1] at hl
    exact Option.noConfusion hl

theorem unixConnLine_remote (l : List Char) (r : ConnRecord)
    (hl : unixConnLine l = some r) :
    r.remote ≠ "*" ∧ hasSubstring r.remote.data "*:*".data = false := by
  simp only [unixConnLine] at hl
  by_cases h0 : (!hasSubstring l ":".data) = true
  · rw [if_pos h0] at hl
    exact Option.noConfusion hl
  · rw [if_neg h0] at hl
    by_cases h5 : (tokenize l).length ≥ 5
    · rw [if_pos h5] at hl
      by_cases hg : jsOr ((tokenize l).getD 4 "") ((tokenize l).getD 3 "") ≠ "" ∧
          jsOr ((tokenize l).getD 5 "") ((tokenize l).getD 4 "") ≠ "" ∧
          jsOr ((tokenize l).getD 5 "") ((tokenize l).getD 4 "") ≠ "*" ∧
          hasSubstring (jsOr ((tokenize l).getD 5 "") ((tokenize l).getD 4 "")).data
            "*:*".data = false
      · rw [if_pos hg] at hl
        cases hl
        exact ⟨hg.2.2.1, hg.2.2.2⟩
      · rw [if_neg hg] at hl
        exact Option.noConfusion hl
    · rw [if_neg h5] at hl
      exact Option.noConfusion hl

/-- Claim C7 (counterexample): the macOS branch applies no sentinel filter
to the remote endpoint: a crafted lsof-shaped input line yields a record
whose remote is the wildcard sentinel `*:*`, so the claim's "for every
input text and every platform" fails on the `mac` platform. -/
theorem claim_C7_counterexample :
    (parseConnections "x 1 u fd IPv6 dev off TCP a->*:* (ESTABLISHED)" "mac").map
        (fun c => c.remote) = ["*:*"] := by decide

/-- Claim C7 (amended): the Windows parser never emits a record with remote
`0.0.0.0:0` or `*:*`, and the Unix fallback parser never emits a record
with remote `*` or a remote containing `*:*` — for every input text.  The
macOS parser performs no such filtering (its source format, established
lsof lines, contains no wildcard remotes, but adversarial text can produce
one — see the counterexample). -/
theorem claim_C7_amended (output osType : String) (r : ConnRecord)
    (hmem : r ∈ parseConnections output osType) :
    (osType = "windows" → r.remote ≠ "0.0.0.0:0" ∧ r.remote ≠ "*:*") ∧
    (osType ≠ "windows" → osType ≠ "mac" →
      r.remote ≠ "*" ∧ hasSubstring r.remote.data "*:*".data = false) := by
  constructor
  · intro hw
    subst hw
    simp only [parseConnections] at hmem
    rw [if_pos trivial] at hmem
    rw [List.mem_filterMap] at hmem
    obtain ⟨l, -, hl⟩ := hmem
    exact winConnLine_remote l r hl
  · intro hw hm
    simp only [parseConnections] at hmem
    rw [if_neg hw, if_neg hm] at hmem
    rw [List.mem_filterMap] at hmem
    obtain ⟨l, -, hl⟩ := hmem
    exact unixConnLine_remote l r hl

/-- Claim C7 amended theorem, instantiated at a concrete Windows record. -/
theorem claim_C7_witness :
    ({ protocol := "TCP", localAddr := "1.2.3.4:80", remote := "5.6.7.8:90",
       state := "EST", process := "Unknown", family := none,
       id := "TCP|1.2.3.4:80|5.6.7.8:90|EST" } : ConnRecord).remote ≠ "0.0.0.0:0" ∧
    ({ protocol := "TCP", localAddr := "1.2.3.4:80", remote := "5.6.7.8:90",
       state := "EST", process := "Unknown", family := none,
       id := "TCP|1.2.3.4:80|5.6.7.8:90|EST" } : ConnRecord).remote ≠ "*:*" := by
  exact (claim_C7_amended "TCP 1.2.3.4:80 5.6.7.8:90 EST" "windows"
    { protocol := "TCP", localAddr := "1.2.3.4:80", remote := "5.6.7.8:90",
      state := "EST", process := "Unknown", family := none,
      id := "TCP|1.2.3.4:80|5.6.7.8:90|EST" } (by decide)).1 rfl

/-- Claim C8 (confirmed): for every input text and every platform,
`parseProcesses` returns the first 50 of the records accumulated in source
order (`slice(0, 50)`), hence at most 50 records and a prefix of the full
record sequence with no re-sorting. -/
theorem claim_C8 (output osType : String) :
    parseProcesses output osType = (parseProcessesAll output osType).take 50 ∧
    (parseProcesses output osType).length ≤ 50 := by
  refine ⟨rfl, ?_⟩
  show ((parseProcessesAll output osType).take 50).length ≤ 50
  rw [List.length_take]
  exact Nat.min_le_left _ _

/-- Claim C9 (confirmed): after a header line, the quoted CSV data line
yields exactly one record with name `chrome.exe` and pid `1234`; the comma
inside the quoted field `"50,000 K"` does not split it (it lands whole in
the memory column), and the final field `"2"` is flushed by the appended
trailing comma (it lands in the CPU column, field index 7). -/
theorem claim_C9 :
    parseProcesses
        ("\"Image Name\",\"PID\",\"Session Name\",\"Session#\",\"Mem Usage\",\"Status\",\"User Name\",\"CPU Time\"\n" ++
          "\"chrome.exe\",\"1234\",\"Console\",\"1\",\"50,000 K\",\"N/A\",\"user1\",\"2\"")
        "windows" =
      [{ name := "chrome.exe", pid := "1234", user := "user1", cpu := "2",
         mem := "50,000 K", id := "chrome.exe|1234" }] := by decide

theorem mem_of_mem_dropWhile {α : Type} {p : α → Bool} {a : α} :
    ∀ {l : List α}, a ∈ l.dropWhile p → a ∈ l := by
  intro l
  induction l with
  | nil => intro h; exact h
  | cons b l ih =>
    intro h
    by_cases hb : p b = true
    · rw [List.dropWhile_cons_of_pos hb] at h
      exact List.mem_cons_of_mem b (ih h)
    · rw [List.dropWhile_cons_of_neg hb] at h
      exact h

theorem mem_listTrim {a : Char} {l : List Char} (h : a ∈ listTrim l) : a ∈ l := by
  unfold listTrim at h
  rw [List.mem_reverse] at h
  have h2 := mem_of_mem_dropWhile h
  rw [List.mem_reverse] at h2
  exact mem_of_mem_dropWhile h2

theorem scanFields_no_quote :
    ∀ (cs : List Char) (inQ : Bool) (cur : List Char),
      (∀ c ∈ cur, c ≠ '"') →
      ∀ f ∈ scanFields cs inQ cur, ∀ c ∈ f.data, c ≠ '"' := by
  intro cs
  induction cs with
  | nil =>
    intro inQ cur _ f hf
    cases hf
  | cons c cs ih =>
    intro inQ cur hcur f hf
    unfold scanFields at hf
    by_cases h1 : (c == '"') = true
    · rw [if_pos h1] at hf
      exact ih (!inQ) cur hcur f hf
    · rw [if_neg h1] at hf
      by_cases h2 : (c == ',' && !inQ) = true
      · rw [if_pos h2] at hf
        rcases List.mem_cons.mp hf with he | hm
        · subst he
          intro ch hch
          exact hcur ch (mem_listTrim hch)
        · exact ih inQ [] (by intro d hd; cases hd) f hm
      · rw [if_neg h2] at hf
        refine ih inQ (cur ++ [c]) ?_ f hf
        intro d hd
        rcases List.mem_append.mp hd with hd | hd
        · exact hcur d hd
        · rw [List.mem_singleton] at hd
          subst hd
          intro he
          exact h1 (beq_iff_eq.mpr he)

theorem stripLeadQuote_no_quote {s : String} (h : ∀ c ∈ s.data, c ≠ '"') :
    stripLeadQuote s = s := by
  unfold stripLeadQuote
  split
  · rename_i rest heq
    exact absurd rfl (h '"' (by rw [heq]; exact List.mem_cons_self _ _))
  · rfl

theorem stripTrailQuote_no_quote {s : String} (h : ∀ c ∈ s.data, c ≠ '"') :
    stripTrailQuote s = s := by
  have hne : ¬ s.data.getLast? = some '"' := fun hlast =>
    absurd rfl (h '"' (List.mem_of_getLast?_eq_some hlast))
  unfold stripTrailQuote
  rw [if_neg hne]

theorem getD_mem_or_default {α : Type} (l : List α) (i : Nat) (d : α) :
    l.getD i d ∈ l ∨ l.getD i d = d := by
  rw [List.getD_eq_get?]
  cases hg : l.get? i with
  | none => right; rfl
  | some a => left; exact List.get?_mem hg

/-- Claim C10 (confirmed): the quote-scanning loop consumes quote
characters without appending them, so no scanned field contains a
double-quote and the leading/trailing-quote stripping applied to name and
pid is a no-op; consequently every field of every record emitted by the
Windows process parser is quote-free. -/
theorem claim_C10 :
    (∀ (line : List Char) (f : String), f ∈ scanFields (line ++ [',']) false [] →
      (∀ c ∈ f.data, c ≠ '"') ∧ stripTrailQuote (stripLeadQuote f) = f) ∧
    (∀ (output : String) (r : ProcRecord), r ∈ parseProcesses output "windows" →
      (∀ c ∈ r.name.data, c ≠ '"') ∧ (∀ c ∈ r.pid.data, c ≠ '"') ∧
      (∀ c ∈ r.user.data, c ≠ '"') ∧ (∀ c ∈ r.cpu.data, c ≠ '"') ∧
      (∀ c ∈ r.mem.data, c ≠ '"') ∧ (∀ c ∈ r.id.data, c ≠ '"')) := by
  have hfield : ∀ (line : List Char) (f : String), f ∈ scanFields (line ++ [',']) false [] →
      ∀ c ∈ f.data, c ≠ '"' := by
    intro line f hf
    exact scanFields_no_quote (line ++ [',']) false [] (by intro c hc; cases hc) f hf
  have hstrip : ∀ (f : String), (∀ c ∈ f.data, c ≠ '"') →
      stripTrailQuote (stripLeadQuote f) = f := by
    intro f hq
    rw [stripLeadQuote_no_quote hq, stripTrailQuote_no_quote hq]
  constructor
  · intro line f hf
    exact ⟨hfield line f hf, hstrip f (hfield line f hf)⟩
  · intro output r hmem
    have hmem2 : r ∈ parseProcessesAll output "windows" :=
      List.take_subset 50 _ hmem
    simp only [parseProcessesAll] at hmem2
    rw [if_pos trivial] at hmem2
    rw [List.mem_filterMap] at hmem2
    obtain ⟨l, -, hl⟩ := hmem2
    simp only [winProcLine] at hl
    by_cases h2 : (scanFields (l ++ [',']) false []).length ≥ 2
    · rw [if_pos h2] at hl
      cases hl
      have hgd : ∀ i : Nat,
          ∀ c ∈ ((scanFields (l ++ [',']) false []).getD i "").data, c ≠ '"' := by
        intro i
        rcases getD_mem_or_default (scanFields (l ++ [',']) false []) i "" with hin | hd
        · exact hfield l _ hin
        · rw [hd]
          intro c hc
          cases hc
      have hname : ∀ c ∈ (stripTrailQuote (stripLeadQuote
          ((scanFields (l ++ [',']) false []).getD 0 ""))).data, c ≠ '"' := by
        rw [hstrip _ (hgd 0)]
        exact hgd 0
      have hpid : ∀ c ∈ (stripTrailQuote (stripLeadQuote
          ((scanFields (l ++ [',']) false []).getD 1 ""))).data, c ≠ '"' := by
        rw [hstrip _ (hgd 1)]
        exact hgd 1
      have hjsOr : ∀ (i : Nat) (d : String), (∀ c ∈ d.data, c ≠ '"') →
          ∀ c ∈ (jsOr ((scanFields (l ++ [',']) false []).getD i "") d).data, c ≠ '"' := by
        intro i d hd
        unfold jsOr
        by_cases he : (scanFields (l ++ [',']) false []).getD i "" = ""
        · rw [if_pos he]
          exact hd
        · rw [if_neg he]
          exact hgd i
      refine ⟨hname, hpid, hjsOr 6 "N/A" (by decide), hjsOr 7 "N/A" (by decide),
        hjsOr 4 "N/A" (by decide), ?_⟩
      intro c hc
      rcases List.mem_append.mp hc with hc2 | hc2
      · rcases List.mem_append.mp hc2 with hc3 | hc3
        · exact hname c hc3
        · rw [List.mem_singleton] at hc3
          subst hc3
          decide
      · exact hpid c hc2
    · rw [if_neg h2] at hl
      exact Option.noConfusion hl

/-- Claim C10 theorem, instantiated at the line `"x","y"`: the first
scanned field is quote-free and the quote-stripping is a no-op on it. -/
theorem claim_C10_witness :
    (∀ c ∈ ("x" : String).data, c ≠ '"') ∧
    stripTrailQuote (stripLeadQuote "x") = "x" := by
  exact claim_C10.1 ("\"x\",\"y\"").data "x" (by decide)

end Theia
